import Mathlib

/-!
Shallow embedding of the CPTAC `Lscc` data-loading pipeline (`cptac/lscc.py`)
and of the comparison utility exercised by `CPTAC/Endometrial/datatest.py`.

Tables are modelled as lists of rows.  A cell is `Option String`; `none`
models a pandas missing value (`NaN`).  Numeric tables produced by
`pd.to_numeric` carry cells of type `Option ℚ` instead.

Functions from `cptac/dataframe_tools.py` (`unionize_indices`,
`sort_all_rows`) and the `compare_omics` utility are not among the provided
sources; they are modelled from the spec, as marked in their doc comments.
-/

/-! ### Patient_ID separator normalization (lscc.py lines 209-224) -/

/-- Embedding of `df["Patient_ID"].str.replace(r"\.", "-")` (lscc.py line 218):
replace every period character by a hyphen. -/
def replaceDots (l : List Char) : List Char :=
  l.map fun c => if c = '.' then '-' else c

/-- Embedding of `df["Patient_ID"].str.replace(r"-N$", ".N")` (lscc.py line
219): if the string ends with `-N`, rewrite that ending to `.N`. -/
def fixNormalEnding (l : List Char) : List Char :=
  match l.reverse with
  | 'N' :: '-' :: rest => ('N' :: '.' :: rest).reverse
  | _ => l

/-- The whole separator-normalization applied to one identifier. -/
def normalizeChars (l : List Char) : List Char :=
  fixNormalEnding (replaceDots l)

/-- String-level version of the identifier normalization. -/
def normalizePatientID (s : String) : String :=
  String.mk (normalizeChars s.data)

/-- Embedding of `clinical.index.str.endswith(".N")` (lscc.py lines 203-204),
written directly on the character list so it evaluates in the kernel. -/
def endsWithDotN (s : String) : Bool :=
  match s.data.reverse with
  | 'N' :: '.' :: _ => true
  | _ => false

/-! ### Sample-indexed tables -/

/-- A cell of a sample-indexed table; `none` is a pandas `NaN`. -/
abbrev Cell := Option String

/-- A sample-indexed dataframe: a `Patient_ID`-indexed table.  `rows` pairs
each index entry with its cells, aligned positionally with `cols`. -/
structure Tbl where
  cols : List String
  rows : List (String × List Cell)
deriving Repr, DecidableEq

/-- Position of a column label in a column list (first occurrence), as pandas
column lookup resolves labels. -/
def colIdx : List String → String → Option Nat
  | [], _ => none
  | c :: cs, x => if c == x then some 0 else (colIdx cs x).map (· + 1)

/-- Value of a row at a named column. -/
def cellOf (cols : List String) (r : List Cell) (c : String) : Cell :=
  match colIdx cols c with
  | some i => r.getD i none
  | none => none

/-- The index (list of Patient_IDs) of a table. -/
def Tbl.ids (t : Tbl) : List String := t.rows.map Prod.fst

/-- Row of a table at a given Patient_ID (first match), like `df.loc[id]`. -/
def Tbl.lookupRow (t : Tbl) (id : String) : Option (List Cell) :=
  (t.rows.find? fun p => p.1 == id).map Prod.snd

/-- Cell of a table at a given Patient_ID and column. -/
def Tbl.cellAt (t : Tbl) (id c : String) : Cell :=
  match t.lookupRow id with
  | some r => cellOf t.cols r c
  | none => none

/-- Embedding of `df.reindex(master_index)` (lscc.py line 200): one row per
entry of `idx`, taken from `t` when present and filled with missing values
otherwise. -/
def Tbl.reindex (t : Tbl) (idx : List String) : Tbl :=
  { cols := t.cols
    rows := idx.map fun i =>
      (i, (t.lookupRow i).getD (List.replicate t.cols.length none)) }

/-- Replace position `i` of a row by `f` of its current value. -/
def updateNth (l : List Cell) (i : Nat) (f : Cell → Cell) : List Cell :=
  l.set i (f (l.getD i none))

/-- Embedding of `df[col] = df[col].where(cond, other)`: where `cond` holds
the value is kept, otherwise it is replaced by `other`.  `cond` may consult
the row's Patient_ID, as `clinical.index.str.endswith(".N")` does. -/
def Tbl.whereCol (t : Tbl) (c : String) (cond : String → Cell → Bool)
    (other : String) : Tbl :=
  match colIdx t.cols c with
  | none => t
  | some i =>
    { t with rows := t.rows.map fun p =>
        (p.1, updateNth p.2 i fun v => if cond p.1 v then v else some other) }

/-- Embedding of the two imputation lines lscc.py 203-204: missing
`Sample_Tumor_Normal` entries become `"Normal"` when the Patient_ID ends with
`".N"`, and `"Tumor"` otherwise. -/
def imputeSTN (t : Tbl) : Tbl :=
  let t1 := t.whereCol "Sample_Tumor_Normal"
    (fun id v => !(v.isNone && endsWithDotN id)) "Normal"
  t1.whereCol "Sample_Tumor_Normal"
    (fun id v => !(v.isNone && !endsWithDotN id)) "Tumor"

/-! ### The data dictionary (`self._data`) -/

/-- A data dictionary: table names to tables, in insertion order. -/
abbrev DataDict := List (String × Tbl)

/-- Value of a key in the data dictionary. -/
def dictGet (d : DataDict) (k : String) : Option Tbl :=
  (d.find? fun p => p.1 == k).map Prod.snd

/-- Replacement of the value at an existing key, as Python dict assignment. -/
def dictSet (d : DataDict) (k : String) (t : Tbl) : DataDict :=
  d.map fun p => if p.1 == k then (k, t) else p

/-- Modelled from the spec: `unionize_indices` lives in `dataframe_tools.py`,
which is not among the sources.  Per the spec and the call-site comment
(lscc.py line 195) it returns "a union of all dataframes' indices, with
duplicates removed", skipping any table named by `exclude`. -/
def unionize_indices (d : DataDict) (exclude : String) : List String :=
  (((d.filter fun p => p.1 != exclude).map fun p => p.2.ids).flatten).dedup

/-- Application of the identifier normalization to a table's index
(lscc.py lines 210-224: reset_index, replace, set_index). -/
def normalizeIdsTbl (t : Tbl) : Tbl :=
  { t with rows := t.rows.map fun p => (normalizePatientID p.1, p.2) }

/-- The normalization loop over the whole data dictionary
(lscc.py lines 210-224). -/
def normalizeStep (d : DataDict) : DataDict :=
  d.map fun p => (p.1, normalizeIdsTbl p.2)

/-- Sort key taken from the clinical table's tumor/normal column; a missing
status is keyed by the empty string. -/
def statusKey (clin : Tbl) (id : String) : String :=
  (clin.cellAt id "Sample_Tumor_Normal").getD ""

/-- The row order used by the final sort: first by tumor/normal status, then
by Patient_ID. -/
def rowLe (clin : Tbl) (a b : String × List Cell) : Prop :=
  statusKey clin a.1 < statusKey clin b.1 ∨
    (statusKey clin a.1 = statusKey clin b.1 ∧ a.1 ≤ b.1)

instance (clin : Tbl) : DecidableRel (rowLe clin) := fun a b =>
  inferInstanceAs (Decidable (statusKey clin a.1 < statusKey clin b.1 ∨
    (statusKey clin a.1 = statusKey clin b.1 ∧ a.1 ≤ b.1)))

/-- Modelled from the spec: `sort_all_rows` lives in `dataframe_tools.py`,
which is not among the sources.  Per the spec and the call-site comment
(lscc.py lines 226-227) it sorts every table's rows "first by sample status,
and then by the index". -/
def sort_all_rows (d : DataDict) : DataDict :=
  let clin := ((dictGet d "clinical").getD ⟨[], []⟩)
  d.map fun p => (p.1, { p.2 with rows := List.insertionSort (rowLe clin) p.2.rows })

/-- Embedding of the cross-table reconciliation block, lscc.py lines 195-227:
compute the master index, reindex the clinical table to it, impute
tumor/normal labels, normalize every table's Patient_IDs, and sort all rows.
(`standardize_axes_names` only renames axis labels, which this representation
does not carry, so it contributes nothing here.) -/
def lsccFormat (d : DataDict) : Option DataDict :=
  match dictGet d "clinical" with
  | none => none
  | some clinical =>
    let master := unionize_indices d "followup"
    let clinical2 := imputeSTN (clinical.reindex master)
    some (sort_all_rows (normalizeStep (dictSet d "clinical" clinical2)))

/-! ### Raw GCT-style tables and the per-file transformers -/

/-- A raw dataframe as produced by `pd.read_csv(..., dtype=object)`: named
columns, rows of string cells (`none` is `NaN`), no index set yet. -/
structure RawDF where
  cols : List String
  rows : List (List Cell)
deriving Repr, DecidableEq

/-- Embedding of `df[df[c] != v]`: keep the rows whose cell at column `c`
differs from `v` (a `NaN` cell differs from any string, as in pandas).
Fails when the column is absent, as pandas column lookup would. -/
def filterNe (t : RawDF) (c v : String) : Option RawDF :=
  if t.cols.contains c then
    some { cols := t.cols, rows := t.rows.filter fun r => !(cellOf t.cols r c == some v) }
  else none

/-- Embedding of `df[df[c] == v]`: keep the rows whose cell at column `c`
equals `v` (a `NaN` cell never compares equal, as in pandas). -/
def filterEq (t : RawDF) (c v : String) : Option RawDF :=
  if t.cols.contains c then
    some { cols := t.cols, rows := t.rows.filter fun r => cellOf t.cols r c == some v }
  else none

/-- Embedding of `df[c] = df[c].str.<f>`: rewrite the cell at column `c` of
every row through `f`; a `NaN` cell stays `NaN`. -/
def mapColRaw (t : RawDF) (c : String) (f : String → String) : Option RawDF :=
  match colIdx t.cols c with
  | none => none
  | some i =>
    some { cols := t.cols, rows := t.rows.map fun r => r.set i ((r.getD i none).map f) }

/-- A column rename mapping applied to one label. -/
def applyRename (m : List (String × String)) (c : String) : String :=
  (m.lookup c).getD c

/-- Embedding of `df.rename(columns=m)`. -/
def renameColsRaw (t : RawDF) (m : List (String × String)) : RawDF :=
  { cols := t.cols.map (applyRename m), rows := t.rows }

/-- Guard that the named columns are all present, as pandas label lookup
requires. -/
def requireCols (t : RawDF) (cs : List String) : Option RawDF :=
  if cs.all (fun c => t.cols.contains c) then some t else none

/-- Embedding of `df.drop(columns=ds)` on a raw dataframe. -/
def dropColsRaw (t : RawDF) (ds : List String) : Option RawDF :=
  if ds.all (fun c => t.cols.contains c) then
    some { cols := t.cols.filter fun c => !(ds.contains c)
           rows := t.rows.map fun r =>
             (t.cols.zip r).filterMap fun q => if ds.contains q.1 then none else some q.2 }
  else none

/-- A dataframe with a (possibly multi-level) index: `keyCols` names the index
levels, and each row pairs its index key with its remaining data cells,
aligned with `dataCols`. -/
structure IndexedDF where
  keyCols : List String
  dataCols : List String
  rows : List (List Cell × List Cell)
deriving Repr, DecidableEq

/-- Embedding of `df.set_index(ks)`: the named columns become the index
levels, the remaining columns stay as data. -/
def setIndexRaw (ks : List String) (t : RawDF) : Option IndexedDF :=
  if ks.all (fun c => t.cols.contains c) then
    some { keyCols := ks
           dataCols := t.cols.filter fun c => !(ks.contains c)
           rows := t.rows.map fun r =>
             (ks.map (cellOf t.cols r),
              (t.cols.zip r).filterMap fun q => if ks.contains q.1 then none else some q.2) }
  else none

/-- Embedding of `df.drop(columns=ds)` on an indexed dataframe. -/
def dropColsIdx (ds : List String) (t : IndexedDF) : Option IndexedDF :=
  if ds.all (fun c => t.dataCols.contains c) then
    some { keyCols := t.keyCols
           dataCols := t.dataCols.filter fun c => !(ds.contains c)
           rows := t.rows.map fun p =>
             (p.1, (t.dataCols.zip p.2).filterMap fun q =>
               if ds.contains q.1 then none else some q.2) }
  else none

/-! ### Numeric coercion (`df.apply(pd.to_numeric)`) -/

/-- Numeric value of a list of decimal digit characters. -/
def natOfDigits (l : List Char) : Nat :=
  l.foldl (fun n c => n * 10 + (c.toNat - 48)) 0

/-- Parse of an unsigned decimal literal (digits with an optional fractional
part) into an exact rational. -/
def parseUnsignedChars (l : List Char) : Option ℚ :=
  match l.span Char.isDigit with
  | (ds, []) => if ds.isEmpty then none else some (natOfDigits ds : ℚ)
  | (ds, '.' :: fs) =>
    if (ds.isEmpty && fs.isEmpty) || !(fs.all Char.isDigit) then none
    else some ((natOfDigits ds : ℚ) + (natOfDigits fs : ℚ) / ((10 : ℚ) ^ fs.length))
  | _ => none

/-- Parse of a signed decimal literal. -/
def parseRatChars (l : List Char) : Option ℚ :=
  match l with
  | '-' :: rest => (parseUnsignedChars rest).map (fun q => -q)
  | _ => parseUnsignedChars l

/-- Embedding of `pd.to_numeric` on one cell: `NaN` passes through, a decimal
literal is parsed exactly, anything else raises (`none`). -/
def toNumericCell (c : Cell) : Option (Option ℚ) :=
  match c with
  | none => some none
  | some s => (parseRatChars s.data).map some

/-- Monadic map over a list in the `Option` monad. -/
def mapOption {α β : Type} (f : α → Option β) : List α → Option (List β)
  | [] => some []
  | a :: l => (f a).bind fun b => (mapOption f l).map (b :: ·)

/-- An indexed dataframe whose data cells have been coerced to numbers
(`none` is a `NaN` cell). -/
structure NumIDF where
  keyCols : List String
  dataCols : List String
  rows : List (List Cell × List (Option ℚ))
deriving Repr, DecidableEq

/-- Embedding of `df.apply(pd.to_numeric)`: every data cell of every row is
coerced; the whole step fails if any cell is non-numeric. -/
def applyNumeric (t : IndexedDF) : Option NumIDF :=
  (mapOption (fun p => (mapOption toNumericCell p.2).map fun nc => (p.1, nc)) t.rows).map
    fun rs => { keyCols := t.keyCols, dataCols := t.dataCols, rows := rs }

/-! ### Index sorting and transposition -/

/-- Strict order on index cells: a missing key sorts before any string. -/
def cellLtB : Cell → Cell → Bool
  | none, none => false
  | none, some _ => true
  | some _, none => false
  | some a, some b => decide (a < b)

/-- Lexicographic order on (multi-level) index keys. -/
def keyLeB : List Cell → List Cell → Bool
  | [], _ => true
  | _ :: _, [] => false
  | a :: l, b :: m => if cellLtB a b then true else if a == b then keyLeB l m else false

/-- Embedding of `df.sort_index()` before transposition: rows ordered by
index key. -/
def sortIdx (t : NumIDF) : NumIDF :=
  { t with rows := List.insertionSort (fun p q => keyLeB p.1 q.1 = true) t.rows }

/-- A transposed omics table: one row per sample, one column per feature. -/
structure TDF where
  indexName : String
  sampleIds : List String
  featureKeys : List (List Cell)
  cells : List (List (Option ℚ))
deriving Repr, DecidableEq

/-- Embedding of `df.transpose()`: the data columns (sample labels) become
the rows, the index keys become the columns. -/
def NumIDF.transpose (t : NumIDF) : TDF :=
  { indexName := ""
    sampleIds := t.dataCols
    featureKeys := t.rows.map Prod.fst
    cells := (List.range t.dataCols.length).map fun j => t.rows.map fun p => p.2.getD j none }

/-- Embedding of `df.sort_index()` after transposition: sample rows ordered
by Patient_ID. -/
def TDF.sortRows (t : TDF) : TDF :=
  let sorted := List.insertionSort (fun a b => a.1 ≤ b.1) (t.sampleIds.zip t.cells)
  { t with sampleIds := sorted.map Prod.fst, cells := sorted.map Prod.snd }

/-- Embedding of `df.index.name = n`. -/
def TDF.withIndexName (t : TDF) (n : String) : TDF :=
  { t with indexName := n }

/-- The common tail of every quantitative pipeline, lscc.py: `apply
(pd.to_numeric)`, `sort_index`, `transpose`, `sort_index`,
`index.name = "Patient_ID"`. -/
def gctTail (d : IndexedDF) : Option TDF :=
  (applyNumeric d).map fun n => ((sortIdx n).transpose.sortRows).withIndexName "Patient_ID"

/-! ### The four quantitative pipelines (lscc.py lines 59-71, 73-104, 106-124, 175-189) -/

/-- Embedding of the CNV recipe up to its numeric step: filter metadata rows,
set the `id` index, drop the annotation columns (lscc.py lines 60-65). -/
def cnvIndexed (raw : RawDF) : Option IndexedDF :=
  (filterNe raw "geneSymbol" "na").bind fun f =>
  (setIndexRaw ["id"] f).bind fun i =>
  dropColsIdx ["chrom", "geneSymbol", "chr_end", "chr_start"] i

/-- The full CNV transformer (lscc.py lines 59-71). -/
def cnvTransform (raw : RawDF) : Option TDF :=
  (cnvIndexed raw).bind gctTail

/-- Embedding of `variableSites.str.replace(r"[a-z\s]", "")` (lscc.py line
79): drop ASCII lowercase letters and whitespace from a site string. -/
def cleanSite (s : String) : String :=
  String.mk (s.data.filter fun c => !(c.isLower || c == ' ' || c == '\t' ||
    c == '\n' || c == '\r' || c == '\x0b' || c == '\x0c'))

/-- Pandas elementwise `.eq`: a `NaN` cell compares equal to nothing. -/
def cellEqB : Cell → Cell → Bool
  | some a, some b => a == b
  | _, _ => false

/-- The column rename of the phosphoproteomics recipe (lscc.py lines 80-85). -/
def phosphoRenameMap : List (String × String) :=
  [("geneSymbol", "Name"), ("variableSites", "Site"),
   ("sequence", "Peptide"), ("accession_numbers", "Database_ID")]

/-- The prospective index key of a phosphoproteomics row (lscc.py line 88). -/
def phosphoKeyOf (t : RawDF) (r : List Cell) : List Cell :=
  [cellOf t.cols r "Name", cellOf t.cols r "Site",
   cellOf t.cols r "Peptide", cellOf t.cols r "Database_ID"]

/-- Embedding of lscc.py lines 88-89: drop the rows that have an unlocalized
phosphorylation site and whose key is duplicated in another row. -/
def phosphoDupFilter (t : RawDF) : RawDF :=
  { cols := t.cols
    rows := t.rows.filter fun r =>
      !(!(cellEqB (cellOf t.cols r "Best_numActualVMSites_sty")
            (cellOf t.cols r "Best_numLocalizedVMsites_sty")) &&
        decide (2 ≤ t.rows.countP fun r2 => phosphoKeyOf t r2 == phosphoKeyOf t r)) }

/-- The index levels of the phosphoproteomics table (lscc.py line 92). -/
def phosphoKeyCols : List String := ["Name", "Site", "Peptide", "Database_ID"]

/-- The columns dropped from the phosphoproteomics table (lscc.py lines
94-97). -/
def phosphoDropList : List String :=
  ["id", "id.description", "numColumnsVMsiteObserved", "bestScore",
   "bestDeltaForwardReverseScore", "Best_scoreVML", "Best_numActualVMSites_sty",
   "Best_numLocalizedVMsites_sty", "sequenceVML",
   "accessionNumber_VMsites_numVMsitesPresent_numVMsitesLocalizedBest_earliestVMsiteAA_latestVMsiteAA",
   "protein_mw", "species", "speciesMulti", "orfCategory", "accession_number",
   "protein_group_num", "entry_name", "GeneSymbol"]

/-- The phosphoproteomics recipe before its `set_index` (lscc.py lines
74-89). -/
def phosphoPre (raw : RawDF) : Option RawDF :=
  (filterNe raw "geneSymbol" "na").bind fun f =>
  (mapColRaw f "variableSites" cleanSite).bind fun m =>
  (requireCols (renameColsRaw m phosphoRenameMap)
    ("Best_numActualVMSites_sty" :: "Best_numLocalizedVMsites_sty" :: phosphoKeyCols)).map
    phosphoDupFilter

/-- The phosphoproteomics recipe up to its numeric step (lscc.py lines
74-98). -/
def phosphoIndexed (raw : RawDF) : Option IndexedDF :=
  (phosphoPre raw).bind fun u =>
  (setIndexRaw phosphoKeyCols u).bind fun i =>
  dropColsIdx phosphoDropList i

/-- The full phosphoproteomics transformer (lscc.py lines 73-104). -/
def phosphoTransform (raw : RawDF) : Option TDF :=
  (phosphoIndexed raw).bind gctTail

/-- The index levels of the proteomics table (lscc.py line 112). -/
def proteomicsKeyCols : List String := ["Name", "Database_ID"]

/-- The columns dropped from the proteomics table (lscc.py lines 113-116). -/
def proteomicsDropList : List String :=
  ["id", "id.description", "geneSymbol", "numColumnsProteinObserved",
   "numSpectraProteinObserved", "protein_mw", "percentCoverage", "numPepsUnique",
   "scoreUnique", "species", "orfCategory", "accession_number",
   "subgroupNum", "entry_name"]

/-- The proteomics recipe before its `set_index` (lscc.py lines 107-111). -/
def proteomicsPre (raw : RawDF) : Option RawDF :=
  (filterNe raw "geneSymbol" "na").map fun f =>
    renameColsRaw f [("GeneSymbol", "Name"), ("accession_numbers", "Database_ID")]

/-- The proteomics recipe up to its numeric step (lscc.py lines 107-117). -/
def proteomicsIndexed (raw : RawDF) : Option IndexedDF :=
  (proteomicsPre raw).bind fun u =>
  (setIndexRaw proteomicsKeyCols u).bind fun i =>
  dropColsIdx proteomicsDropList i

/-- The full proteomics transformer (lscc.py lines 106-124). -/
def proteomicsTransform (raw : RawDF) : Option TDF :=
  (proteomicsIndexed raw).bind gctTail

/-- The miRNA recipe up to its numeric step (lscc.py lines 176-182). -/
def mirnaIndexed (raw : RawDF) : Option IndexedDF :=
  (filterNe raw "Name" "na").bind fun f =>
  (setIndexRaw ["Name", "Database_ID"] (renameColsRaw f [("ID", "Database_ID")])).bind fun i =>
  dropColsIdx ["Derives_from", "Quantified.in.Percent.Samples", "id", "Alias"] i

/-- The full miRNA transformer (lscc.py lines 175-189). -/
def mirnaTransform (raw : RawDF) : Option TDF :=
  (mirnaIndexed raw).bind gctTail

/-! ### The sample-annotation recipe and its three-way split (lscc.py lines 134-165) -/

/-- Embedding of `df[cs]` on a sample-indexed table: select the named
columns, in the order given. -/
def selectColumns (t : Tbl) (cs : List String) : Option Tbl :=
  if cs.all (fun c => t.cols.contains c) then
    some { cols := cs, rows := t.rows.map fun p => (p.1, cs.map (cellOf t.cols p.2)) }
  else none

/-- Embedding of `df.drop(columns=cs)` on a sample-indexed table. -/
def dropColumns (t : Tbl) (cs : List String) : Option Tbl :=
  if cs.all (fun c => t.cols.contains c) then
    some { cols := t.cols.filter fun c => !(cs.contains c)
           rows := t.rows.map fun p =>
             (p.1, (t.cols.zip p.2).filterMap fun q =>
               if cs.contains q.1 then none else some q.2) }
  else none

/-- Embedding of `df.rename(columns=m)` on a sample-indexed table. -/
def renameColsTbl (t : Tbl) (m : List (String × String)) : Tbl :=
  { cols := t.cols.map (applyRename m), rows := t.rows }

/-- Embedding of `df[c] = df[c].replace(old, val)`: exact-value replacement
in one column. -/
def replaceInCol (t : Tbl) (c old val : String) : Option Tbl :=
  match colIdx t.cols c with
  | none => none
  | some i =>
    some { t with rows := t.rows.map fun p =>
      (p.1, p.2.set i (if p.2.getD i none == some old then some val else p.2.getD i none)) }

/-- Embedding of `df.set_index(c)` into a sample-indexed table: the named
column becomes the Patient_ID index. -/
def setIndexSingle (c : String) (t : RawDF) : Option Tbl :=
  match colIdx t.cols c with
  | none => none
  | some _ =>
    some { cols := t.cols.filter fun x => !(x == c)
           rows := t.rows.map fun r =>
             ((cellOf t.cols r c).getD "",
              (t.cols.zip r).filterMap fun q => if q.1 == c then none else some q.2) }

/-- The sample-annotation recipe before the three-way split (lscc.py lines
135-143): keep QC-passing rows, drop `Participant`, index by `Sample.ID`,
drop `Sample.IDs`, rename `Type`, rewrite `NAT` to `Normal`. -/
def annotationBase (raw : RawDF) : Option Tbl :=
  (filterEq raw "QC.status" "QC.pass").bind fun f =>
  (dropColsRaw f ["Participant"]).bind fun d =>
  (setIndexSingle "Sample.ID" d).bind fun t =>
  (dropColumns t ["Sample.IDs"]).bind fun t1 =>
  replaceInCol (renameColsTbl t1 [("Type", "Sample_Tumor_Normal")])
    "Sample_Tumor_Normal" "NAT" "Normal"

/-- The columns of the experimental_design table (lscc.py line 147). -/
def experimental_design_cols : List String := ["Experiment", "Channel", "QC.status"]

/-- The columns of the derived_molecular table (lscc.py lines 152-160). -/
def derived_molecular_cols : List String :=
  ["TP53.mutation", "CDKN2A.mutation", "PTEN.mutation", "PIK3CA.mutation",
   "KEAP1.mutation", "HLA.A.mutation", "NFE2L2.mutation", "NOTCH1.mutation", "RB1.mutation",
   "HRAS.mutation", "FBXW7.mutation", "SMARCA4.mutation", "NF1.mutation", "SMAD4.mutation",
   "EGFR.mutation", "APC.mutation", "BRAF.mutation", "TNFAIP3.mutation", "CREBBP.mutation",
   "TP53.mutation.status", "CDKN2A.mutation.status", "PTEN.mutation.status", "PIK3CA.mutation.status",
   "KEAP1.mutation.status", "HLA.A.mutation.status", "NFE2L2.mutation.status", "NOTCH1.mutation.status",
   "RB1.mutation.status", "HRAS.mutation.status", "FBXW7.mutation.status", "SMARCA4.mutation.status",
   "NF1.mutation.status", "SMAD4.mutation.status", "EGFR.mutation.status", "APC.mutation.status",
   "BRAF.mutation.status", "TNFAIP3.mutation.status", "CREBBP.mutation.status"]

/-- The full annotation transformer (lscc.py lines 134-165), returning the
clinical, experimental_design and derived_molecular tables in that order. -/
def annotationTransform (raw : RawDF) : Option (Tbl × Tbl × Tbl) :=
  (annotationBase raw).bind fun df =>
  (selectColumns df experimental_design_cols).bind fun ed =>
  (dropColumns df experimental_design_cols).bind fun df1 =>
  (selectColumns df1 derived_molecular_cols).bind fun dm =>
  (dropColumns df1 derived_molecular_cols).map fun cl => (cl, ed, dm)

/-! ### The comparison utility (datatest.py lines 145-172 and 506-546) -/

/-- Boolean list-prefix test, used for gene-to-column matching. -/
def isPrefixList : List Char → List Char → Bool
  | [], _ => true
  | _ :: _, [] => false
  | a :: l, b :: m => a == b && isPrefixList l m

/-- Modelled from the spec: a column matches a requested gene name when it is
the gene itself or a site column of the gene (`gene-...`), as the tests'
regexes `^gene$` and `gene-.*` select (datatest.py lines 572-580). -/
def matchesGene (g c : String) : Bool :=
  c == g || isPrefixList (g ++ "-").data c.data

/-- Modelled from the spec: the gene-name filter of `compare_omics`; with no
filter the whole table is kept, else the columns matching some requested
gene. -/
def selectGenes (t : Tbl) (gs : Option (List String)) : Tbl :=
  match gs with
  | none => t
  | some gl =>
    { cols := t.cols.filter fun c => gl.any fun g => matchesGene g c
      rows := t.rows.map fun p =>
        (p.1, (t.cols.zip p.2).filterMap fun q =>
          if gl.any (fun g => matchesGene g q.1) then some q.2 else none) }

/-- Modelled from the spec: `compare_omics` is not among the sources.  Per
the spec and its tests (datatest.py lines 506-546) it joins two omics tables
on their shared sample identifiers, keeps the selected columns of both
inputs, and appends each source table's name to its column labels for
disambiguation. -/
def compare_omics (t1 t2 : Tbl) (n1 n2 : String) (g1 g2 : Option (List String)) : Tbl :=
  let s1 := selectGenes t1 g1
  let s2 := selectGenes t2 g2
  { cols := (s1.cols.map fun c => c ++ "_" ++ n1) ++ (s2.cols.map fun c => c ++ "_" ++ n2)
    rows := s1.rows.filterMap fun p =>
      match s2.lookupRow p.1 with
      | some r2 => some (p.1, p.2 ++ r2)
      | none => none }

/-! ### Spec predicates used by the theorems -/

/-- Correspondence between a numeric pre-transpose table and a transposed
table: the features are the index keys, and each sample row of the output is
the column of that sample in the pre-transpose table. -/
def sampleRowsOf (m : NumIDF) (out : TDF) : Prop :=
  out.featureKeys = m.rows.map Prod.fst ∧
  ∀ p ∈ out.sampleIds.zip out.cells,
    ∃ j, m.dataCols[j]? = some p.1 ∧ p.2 = m.rows.map fun r => r.2.getD j none

/-- Cell-wise numeric-coercion correspondence between the rows of an indexed
dataframe and its numeric image. -/
def numCoe (p : List Cell × List Cell) (q : List Cell × List (Option ℚ)) : Prop :=
  q.1 = p.1 ∧ mapOption toNumericCell p.2 = some q.2

/-! ### Concrete instances used to exercise the pipeline -/

/-- A one-sample CNV-style table. -/
def exCNV : Tbl := { cols := ["g1"], rows := [("A", [some "1"])] }

/-- A one-sample clinical table whose sample is absent from the CNV table. -/
def exClinical : Tbl :=
  { cols := ["Sample_Tumor_Normal"], rows := [("B", [some "Tumor"])] }

/-- A two-table data dictionary with differing indices. -/
def exDict : DataDict := [("CNV", exCNV), ("clinical", exClinical)]

/-- The formatted output of the two-table dictionary. -/
def lsccOutEx : DataDict := (lsccFormat exDict).getD []

/-- A dictionary whose Patient_IDs use period separators. -/
def c2Dict : DataDict :=
  [("clinical", { cols := ["Sample_Tumor_Normal"],
                  rows := [("C3L.00081", [some "Tumor"]),
                           ("C3L.00081.N", [some "Normal"])] })]

/-- A clinical table with one tumor sample. -/
def clinEx : Tbl :=
  { cols := ["Age", "Sample_Tumor_Normal"], rows := [("X", [some "61", some "Tumor"])] }

/-- A master index adding a normal sample unknown to the clinical table. -/
def masterEx : List String := ["X", "Y.N"]

/-- A one-gene, one-sample raw CNV file. -/
def cnvRawEx : RawDF :=
  { cols := ["id", "chrom", "geneSymbol", "chr_end", "chr_start", "S1"]
    rows := [[some "G1", some "1", some "TP53", some "10", some "5", some "0.5"]] }

/-- The transformed CNV table of `cnvRawEx`. -/
def cnvTDFEx : TDF :=
  (cnvTransform cnvRawEx).getD { indexName := "", sampleIds := [], featureKeys := [], cells := [] }

/-- A one-row, one-sample raw phosphoproteomics file. -/
def phosphoRawEx : RawDF :=
  { cols := ["id", "id.description", "numColumnsVMsiteObserved", "bestScore",
      "bestDeltaForwardReverseScore", "Best_scoreVML", "Best_numActualVMSites_sty",
      "Best_numLocalizedVMsites_sty", "sequenceVML",
      "accessionNumber_VMsites_numVMsitesPresent_numVMsitesLocalizedBest_earliestVMsiteAA_latestVMsiteAA",
      "protein_mw", "species", "speciesMulti", "orfCategory", "accession_number",
      "protein_group_num", "entry_name", "GeneSymbol", "geneSymbol", "variableSites",
      "sequence", "accession_numbers", "S1"]
    rows := [[some "1", some "d", some "1", some "9", some "1", some "5", some "1",
      some "1", some "PEpTIDE", some "acc", some "50", some "Hs", some "Hs", some "o",
      some "NP_1", some "7", some "e", some "TP53", some "TP53", some "S15s",
      some "PEPT", some "NP_1", some "0.25"]] }

/-- The indexed stage of `phosphoRawEx`. -/
def phosphoIdxEx : IndexedDF :=
  (phosphoIndexed phosphoRawEx).getD { keyCols := [], dataCols := [], rows := [] }

/-- A one-row raw sample-annotation file holding every split column. -/
def annotRawEx : RawDF :=
  { cols := ["Sample.ID", "Sample.IDs", "Participant", "QC.status", "Type",
      "Experiment", "Channel", "Age"] ++ derived_molecular_cols
    rows := [[some "X", some "X2", some "P", some "QC.pass", some "NAT", some "E1",
      some "C1", some "63"] ++ List.replicate 38 (some "WT")] }

/-- The three-way split of `annotRawEx`. -/
def annotEx : Tbl × Tbl × Tbl :=
  (annotationTransform annotRawEx).getD
    ({ cols := [], rows := [] }, { cols := [], rows := [] }, { cols := [], rows := [] })

/-- A two-sample proteomics-style table for the comparison utility. -/
def cmpT1 : Tbl :=
  { cols := ["P1", "P2"], rows := [("S1", [some "1", some "2"]), ("S2", [some "3", some "4"])] }

/-- A second omics table sharing exactly one sample with `cmpT1`. -/
def cmpT2 : Tbl :=
  { cols := ["Q1"], rows := [("S2", [some "7"]), ("S3", [some "8"])] }

/-- The four quantitative transformers, indexed for uniform statements. -/
def gctTransforms : Fin 4 → RawDF → Option TDF :=
  ![cnvTransform, phosphoTransform, proteomicsTransform, mirnaTransform]

/-- The pre-numeric stages of the four quantitative transformers. -/
def gctStages : Fin 4 → RawDF → Option IndexedDF :=
  ![cnvIndexed, phosphoIndexed, proteomicsIndexed, mirnaIndexed]

/-- The two multi-level key pipelines, indexed for uniform statements. -/
def keyedIndexed : Fin 2 → RawDF → Option IndexedDF :=
  ![phosphoIndexed, proteomicsIndexed]

/-- The stages feeding the two multi-level `set_index` calls. -/
def keyedPre : Fin 2 → RawDF → Option RawDF :=
  ![phosphoPre, proteomicsPre]

/-- The two multi-level key lists. -/
def keyedCols : Fin 2 → List String :=
  ![phosphoKeyCols, proteomicsKeyCols]

/-! ## Theorems -/

theorem replaceDots_no_dot (l : List Char) : ∀ c ∈ replaceDots l, c ≠ '.' := by
  intro c hc
  rw [replaceDots, List.mem_map] at hc
  obtain ⟨a, -, rfl⟩ := hc
  by_cases h : a = '.' <;> simp [h]

theorem replaceDots_eq_self : ∀ {l : List Char}, (∀ c ∈ l, c ≠ '.') → replaceDots l = l
  | [], _ => rfl
  | a :: l, h => by
    have ha : a ≠ '.' := h a (List.mem_cons_self a l)
    show (if a = '.' then '-' else a) :: replaceDots l = a :: l
    rw [if_neg ha, replaceDots_eq_self fun c hc => h c (List.mem_cons_of_mem a hc)]

theorem replaceDots_append (a b : List Char) :
    replaceDots (a ++ b) = replaceDots a ++ replaceDots b :=
  List.map_append _ a b

theorem fixNormalEnding_eq_self {l : List Char}
    (h : ∀ rest, l.reverse ≠ 'N' :: '-' :: rest) : fixNormalEnding l = l := by
  rw [fixNormalEnding]
  split
  · rename_i rest heq
    exact absurd heq (h rest)
  · rfl

theorem fixNormalEnding_dashN (u : List Char) :
    fixNormalEnding (u ++ ['-', 'N']) = u ++ ['.', 'N'] := by
  have hrev : (u ++ ['-', 'N']).reverse = 'N' :: '-' :: u.reverse := by simp
  rw [fixNormalEnding]
  split
  · rename_i rest heq
    rw [hrev] at heq
    injection heq with h1 h2
    injection h2 with h3 h4
    subst h4
    simp
  · rename_i hne
    exact absurd hrev (hne u.reverse)

theorem normalizeChars_shape (l : List Char) :
    (∀ c ∈ normalizeChars l, c ≠ '.') ∨
      ∃ u, normalizeChars l = u ++ ['.', 'N'] ∧ ∀ c ∈ u, c ≠ '.' := by
  have hw := replaceDots_no_dot l
  rw [normalizeChars, fixNormalEnding]
  split
  · rename_i rest heq
    right
    refine ⟨rest.reverse, by simp, fun c hc => ?_⟩
    apply hw
    rw [List.mem_reverse] at hc
    have : c ∈ (replaceDots l).reverse := by
      rw [heq]
      exact List.mem_cons_of_mem _ (List.mem_cons_of_mem _ hc)
    rwa [List.mem_reverse] at this
  · left
    exact hw

theorem normalizeChars_not_dashN (l : List Char) :
    ∀ rest, (normalizeChars l).reverse ≠ 'N' :: '-' :: rest := by
  rw [normalizeChars, fixNormalEnding]
  split
  · rename_i rest0 heq
    intro rest h
    rw [List.reverse_reverse] at h
    injection h with h1 h2
    injection h2 with h3 h4
    exact absurd h3 (by decide)
  · rename_i hne
    intro rest h
    exact hne rest h

theorem normalizeChars_idem (l : List Char) :
    normalizeChars (normalizeChars l) = normalizeChars l := by
  rcases normalizeChars_shape l with h | ⟨u, hu, hud⟩
  · conv_lhs => rw [normalizeChars]
    rw [replaceDots_eq_self h]
    exact fixNormalEnding_eq_self (normalizeChars_not_dashN l)
  · conv_lhs => rw [normalizeChars, hu, replaceDots_append, replaceDots_eq_self hud]
    have h2 : replaceDots ['.', 'N'] = ['-', 'N'] := rfl
    rw [h2, fixNormalEnding_dashN, ← hu]

/-- C2: the identifier-normalization step maps every table's index through
the period-to-hyphen replacement with the trailing `-N` rewritten to `.N`,
so that after normalization no Patient_ID contains a period except as part
of a trailing `.N` suffix. -/
theorem c2_separator_normalization (d : DataDict) (p : String × Tbl)
    (hp : p ∈ normalizeStep d) :
    ∃ q ∈ d, q.1 = p.1 ∧ p.2.ids = q.2.ids.map normalizePatientID ∧
      ∀ id ∈ p.2.ids, (∀ c ∈ id.data, c ≠ '.') ∨
        ∃ u, id.data = u ++ ['.', 'N'] ∧ ∀ c ∈ u, c ≠ '.' := by
  rw [normalizeStep, List.mem_map] at hp
  obtain ⟨q, hq, rfl⟩ := hp
  refine ⟨q, hq, rfl, ?_, ?_⟩
  · simp [normalizeIdsTbl, Tbl.ids, List.map_map]
  · intro id hid
    simp [normalizeIdsTbl, Tbl.ids, List.map_map] at hid
    obtain ⟨id0, cells0, -, rfl⟩ := hid
    have hdata : (normalizePatientID id0).data = normalizeChars id0.data := rfl
    rw [hdata]
    exact normalizeChars_shape id0.data

/-- Witness for C2 at a dictionary whose identifiers use period
separators. -/
theorem c2_witness :
    ∃ q ∈ c2Dict,
      q.1 = ("clinical",
        ({ cols := ["Sample_Tumor_Normal"],
           rows := [("C3L-00081", [some "Tumor"]), ("C3L-00081.N", [some "Normal"])] } : Tbl)).1 ∧
      ("clinical",
        ({ cols := ["Sample_Tumor_Normal"],
           rows := [("C3L-00081", [some "Tumor"]), ("C3L-00081.N", [some "Normal"])] } : Tbl)).2.ids =
        q.2.ids.map normalizePatientID ∧
      ∀ id ∈ ("clinical",
        ({ cols := ["Sample_Tumor_Normal"],
           rows := [("C3L-00081", [some "Tumor"]), ("C3L-00081.N", [some "Normal"])] } : Tbl)).2.ids,
        (∀ c ∈ id.data, c ≠ '.') ∨
          ∃ u, id.data = u ++ ['.', 'N'] ∧ ∀ c ∈ u, c ≠ '.' :=
  c2_separator_normalization c2Dict _ (by decide)

/-- C9: the Patient_ID separator normalization is idempotent: applying it
twice yields the same string as applying it once. -/
theorem c9_normalize_idempotent (s : String) :
    normalizePatientID (normalizePatientID s) = normalizePatientID s := by
  show String.mk (normalizeChars (String.mk (normalizeChars s.data)).data) =
    String.mk (normalizeChars s.data)
  exact congrArg String.mk (normalizeChars_idem s.data)

theorem colIdx_lt : ∀ (cols : List String) (x : String) (i : Nat),
    colIdx cols x = some i → i < cols.length
  | [], _, _, h => by simp [colIdx] at h
  | c :: cs, x, i, h => by
    rw [colIdx] at h
    by_cases hc : c == x
    · rw [if_pos hc] at h
      injection h with h
      subst h
      exact Nat.succ_pos _
    · rw [if_neg hc] at h
      cases hcs : colIdx cs x with
      | none => rw [hcs] at h; simp at h
      | some j =>
        rw [hcs] at h
        simp only [Option.map_some'] at h
        injection h with h
        subst h
        exact Nat.succ_lt_succ (colIdx_lt cs x j hcs)

theorem colIdx_isSome_of_mem {cols : List String} {x : String} (h : x ∈ cols) :
    (colIdx cols x).isSome := by
  induction cols with
  | nil => cases h
  | cons c cs ih =>
    rw [colIdx]
    by_cases hc : c == x
    · rw [if_pos hc]; rfl
    · rw [if_neg hc]
      have hx : x ∈ cs := by
        rcases List.mem_cons.mp h with rfl | hx
        · simp at hc
        · exact hx
      cases hcs : colIdx cs x with
      | none =>
        have hs := ih hx
        rw [hcs] at hs
        exact absurd hs (by simp)
      | some j => rfl

theorem getD_set_self : ∀ (l : List Cell) (i : Nat) (v : Cell), i < l.length →
    (l.set i v).getD i none = v
  | [], i, v, h => absurd h (by simp)
  | a :: l, 0, v, _ => rfl
  | a :: l, i + 1, v, h => getD_set_self l i v (Nat.lt_of_succ_lt_succ h)

theorem cellOf_updateNth {cols : List String} {c : String} {i : Nat}
    (hc : colIdx cols c = some i) (r : List Cell) (f : Cell → Cell)
    (hlen : cols.length ≤ r.length) :
    cellOf cols (updateNth r i f) c = f (cellOf cols r c) := by
  simp only [cellOf, hc, updateNth]
  exact getD_set_self r i _ (Nat.lt_of_lt_of_le (colIdx_lt cols c i hc) hlen)

theorem updateNth_length (l : List Cell) (i : Nat) (f : Cell → Cell) :
    (updateNth l i f).length = l.length :=
  List.length_set l i _

theorem whereCol_cols (t : Tbl) (c : String) (cond : String → Cell → Bool)
    (other : String) : (t.whereCol c cond other).cols = t.cols := by
  rw [Tbl.whereCol]
  split <;> rfl

theorem whereCol_rows {t : Tbl} {c : String} {i : Nat}
    (hc : colIdx t.cols c = some i) (cond : String → Cell → Bool) (other : String) :
    (t.whereCol c cond other).rows = t.rows.map fun p =>
      (p.1, updateNth p.2 i fun v => if cond p.1 v then v else some other) := by
  simp only [Tbl.whereCol, hc]

theorem lookupRow_length {t : Tbl} (hwf : ∀ p ∈ t.rows, p.2.length = t.cols.length)
    {id : String} {r : List Cell} (h : t.lookupRow id = some r) :
    r.length = t.cols.length := by
  rw [Tbl.lookupRow] at h
  cases hf : t.rows.find? (fun p => p.1 == id) with
  | none => rw [hf] at h; simp at h
  | some q =>
    rw [hf] at h
    simp only [Option.map_some'] at h
    injection h with h
    subst h
    exact hwf q (List.mem_of_find?_eq_some hf)

theorem reindex_row_length {t : Tbl} (hwf : ∀ p ∈ t.rows, p.2.length = t.cols.length)
    {idx : List String} : ∀ p ∈ (t.reindex idx).rows, p.2.length = t.cols.length := by
  intro p hp
  rw [Tbl.reindex, List.mem_map] at hp
  obtain ⟨i, -, rfl⟩ := hp
  cases hl : t.lookupRow i with
  | none => simp [hl]
  | some r => simpa [hl] using lookupRow_length hwf hl

theorem imputeSTN_cell {t : Tbl} {j : Nat}
    (hj : colIdx t.cols "Sample_Tumor_Normal" = some j)
    (hlen : ∀ p ∈ t.rows, p.2.length = t.cols.length) :
    ∀ (i : Nat) (p q : String × List Cell),
      t.rows[i]? = some p → (imputeSTN t).rows[i]? = some q →
      q.1 = p.1 ∧ cellOf t.cols q.2 "Sample_Tumor_Normal" =
        (match cellOf t.cols p.2 "Sample_Tumor_Normal" with
         | some v => some v
         | none => some (if endsWithDotN p.1 then "Normal" else "Tumor")) := by
  intro i p q hp hq
  have hc1 : colIdx (t.whereCol "Sample_Tumor_Normal"
      (fun id v => !(v.isNone && endsWithDotN id)) "Normal").cols
      "Sample_Tumor_Normal" = some j := by
    rw [whereCol_cols]; exact hj
  rw [imputeSTN, whereCol_rows hc1, whereCol_rows hj, List.getElem?_map,
    List.getElem?_map, hp] at hq
  simp only [Option.map_some'] at hq
  injection hq with hq
  obtain ⟨q1, q2⟩ := q
  obtain ⟨hq1, hq2⟩ := Prod.ext_iff.mp hq.symm
  simp only at hq1 hq2
  subst hq1
  subst hq2
  have hpl : t.cols.length ≤ p.2.length :=
    le_of_eq (hlen p (List.getElem?_mem hp)).symm
  have hpl2 : t.cols.length ≤ (updateNth p.2 j
      fun v => if !(v.isNone && endsWithDotN p.1) then v else some "Normal").length := by
    rw [updateNth_length]; exact hpl
  refine ⟨rfl, ?_⟩
  rw [cellOf_updateNth hj _ _ hpl2, cellOf_updateNth hj _ _ hpl]
  cases hv : cellOf t.cols p.2 "Sample_Tumor_Normal" with
  | some v => simp
  | none => cases hN : endsWithDotN p.1 <;> simp [hN]

/-- C3: after reindexing the clinical table to the master index, every row
with a missing Sample_Tumor_Normal entry gets `"Normal"` exactly when its
Patient_ID ends with `".N"` and `"Tumor"` otherwise, and afterwards no
Sample_Tumor_Normal entry is missing. -/
theorem c3_impute_missing_status (clin : Tbl) (master : List String)
    (hcol : "Sample_Tumor_Normal" ∈ clin.cols)
    (hwf : ∀ p ∈ clin.rows, p.2.length = clin.cols.length) :
    ∀ (i : Nat) (p q : String × List Cell),
      (clin.reindex master).rows[i]? = some p →
      (imputeSTN (clin.reindex master)).rows[i]? = some q →
      q.1 = p.1 ∧
      (cellOf clin.cols q.2 "Sample_Tumor_Normal").isSome ∧
      (cellOf clin.cols p.2 "Sample_Tumor_Normal" = none →
        cellOf clin.cols q.2 "Sample_Tumor_Normal" =
          some (if endsWithDotN p.1 then "Normal" else "Tumor")) := by
  obtain ⟨j, hj⟩ := Option.isSome_iff_exists.mp (colIdx_isSome_of_mem hcol)
  have hj2 : colIdx (clin.reindex master).cols "Sample_Tumor_Normal" = some j := hj
  have hlen2 : ∀ p ∈ (clin.reindex master).rows,
      p.2.length = (clin.reindex master).cols.length := reindex_row_length hwf
  intro i p q hp hq
  obtain ⟨h1, h2⟩ := imputeSTN_cell hj2 hlen2 i p q hp hq
  have h3 : cellOf clin.cols q.2 "Sample_Tumor_Normal" =
      (match cellOf clin.cols p.2 "Sample_Tumor_Normal" with
       | some v => some v
       | none => some (if endsWithDotN p.1 then "Normal" else "Tumor")) := h2
  refine ⟨h1, ?_, ?_⟩
  · rw [h3]
    cases hv : cellOf clin.cols p.2 "Sample_Tumor_Normal" <;> simp
  · intro h0
    rw [h3, h0]

/-- Witness for C3 at the concrete clinical table `clinEx` and master index
`masterEx`, on the normal-sample row the reindexing introduced. -/
theorem c3_witness :
    ("Y.N" : String) = "Y.N" ∧
    (cellOf clinEx.cols [none, some "Normal"] "Sample_Tumor_Normal").isSome ∧
    (cellOf clinEx.cols [none, none] "Sample_Tumor_Normal" = none →
      cellOf clinEx.cols [none, some "Normal"] "Sample_Tumor_Normal" =
        some (if endsWithDotN "Y.N" then "Normal" else "Tumor")) :=
  c3_impute_missing_status clinEx masterEx (by decide) (by decide) 1
    ("Y.N", [none, none]) ("Y.N", [none, some "Normal"]) (by decide) (by decide)

/-- C10: the tumor/normal imputation leaves every already-present
Sample_Tumor_Normal value unchanged, whatever the Patient_ID looks like. -/
theorem c10_present_status_preserved (clin : Tbl) (master : List String)
    (hcol : "Sample_Tumor_Normal" ∈ clin.cols)
    (hwf : ∀ p ∈ clin.rows, p.2.length = clin.cols.length) :
    ∀ (i : Nat) (p q : String × List Cell) (v : String),
      (clin.reindex master).rows[i]? = some p →
      (imputeSTN (clin.reindex master)).rows[i]? = some q →
      cellOf clin.cols p.2 "Sample_Tumor_Normal" = some v →
      cellOf clin.cols q.2 "Sample_Tumor_Normal" = some v := by
  obtain ⟨j, hj⟩ := Option.isSome_iff_exists.mp (colIdx_isSome_of_mem hcol)
  have hj2 : colIdx (clin.reindex master).cols "Sample_Tumor_Normal" = some j := hj
  have hlen2 : ∀ p ∈ (clin.reindex master).rows,
      p.2.length = (clin.reindex master).cols.length := reindex_row_length hwf
  intro i p q v hp hq hv
  obtain ⟨-, h2⟩ := imputeSTN_cell hj2 hlen2 i p q hp hq
  have h3 : cellOf clin.cols q.2 "Sample_Tumor_Normal" =
      (match cellOf clin.cols p.2 "Sample_Tumor_Normal" with
       | some w => some w
       | none => some (if endsWithDotN p.1 then "Normal" else "Tumor")) := h2
  rw [h3, hv]

/-- Witness for C10 at the concrete clinical table `clinEx`, on its tumor
row whose status was already present. -/
theorem c10_witness :
    cellOf clinEx.cols [some "61", some "Tumor"] "Sample_Tumor_Normal" = some "Tumor" :=
  c10_present_status_preserved clinEx masterEx (by decide) (by decide) 0
    ("X", [some "61", some "Tumor"]) ("X", [some "61", some "Tumor"]) "Tumor"
    (by decide) (by decide) (by decide)

/-- C1 (amended): only the clinical table is reindexed to the union of all
tables' sample identifiers; after that reindexing its index is exactly the
master index, and rows for samples absent from the original clinical table
are filled with missing values; the formatted dictionary replaces only the
clinical entry before normalizing and sorting. -/
theorem c1_clinical_reindexed_to_union (d : DataDict) (clin : Tbl)
    (h : dictGet d "clinical" = some clin) :
    (clin.reindex (unionize_indices d "followup")).ids = unionize_indices d "followup" ∧
    (∀ p ∈ (clin.reindex (unionize_indices d "followup")).rows,
      p.1 ∉ clin.ids → p.2 = List.replicate clin.cols.length none) ∧
    lsccFormat d = some (sort_all_rows (normalizeStep (dictSet d "clinical"
      (imputeSTN (clin.reindex (unionize_indices d "followup")))))) := by
  refine ⟨?_, ?_, ?_⟩
  · simp [Tbl.reindex, Tbl.ids, List.map_map, Function.comp_def]
  · intro p hp hnot
    rw [Tbl.reindex] at hp
    simp only [List.mem_map] at hp
    obtain ⟨i, -, rfl⟩ := hp
    have hnone : clin.lookupRow i = none := by
      rw [Tbl.lookupRow]
      rw [List.find?_eq_none.mpr]
      · rfl
      · intro x hx hbeq
        apply hnot
        have hxi : x.1 = i := by simpa using hbeq
        subst hxi
        have hm : x.1 ∈ clin.rows.map Prod.fst := List.mem_map_of_mem Prod.fst hx
        exact hm
    simp [hnone]
  · rw [lsccFormat, h]

/-- Counterexample for C1 as stated: in the two-table dictionary `exDict`
the sample `"B"` belongs to the union of all indices, yet after the load the
CNV table still has no row for it — only the clinical table is reindexed. -/
theorem c1_counterexample :
    "B" ∈ unionize_indices exDict "followup" ∧
    ((lsccFormat exDict).bind fun out => dictGet out "CNV") =
      some { cols := ["g1"], rows := [("A", [some "1"])] } ∧
    "B" ∉ ({ cols := ["g1"], rows := [("A", [some "1"])] } : Tbl).ids := by
  decide

/-- Witness for the amended C1 at the concrete dictionary `exDict`. -/
theorem c1_witness :
    (exClinical.reindex (unionize_indices exDict "followup")).ids =
      unionize_indices exDict "followup" ∧
    (∀ p ∈ (exClinical.reindex (unionize_indices exDict "followup")).rows,
      p.1 ∉ exClinical.ids → p.2 = List.replicate exClinical.cols.length none) ∧
    lsccFormat exDict = some (sort_all_rows (normalizeStep (dictSet exDict "clinical"
      (imputeSTN (exClinical.reindex (unionize_indices exDict "followup")))))) :=
  c1_clinical_reindexed_to_union exDict exClinical (by decide)

theorem rowLe_total (clin : Tbl) : ∀ a b, rowLe clin a b ∨ rowLe clin b a := by
  intro a b
  rcases lt_trichotomy (statusKey clin a.1) (statusKey clin b.1) with h | h | h
  · exact Or.inl (Or.inl h)
  · rcases le_total a.1 b.1 with h2 | h2
    · exact Or.inl (Or.inr ⟨h, h2⟩)
    · exact Or.inr (Or.inr ⟨h.symm, h2⟩)
  · exact Or.inr (Or.inl h)

theorem rowLe_trans (clin : Tbl) :
    ∀ a b c, rowLe clin a b → rowLe clin b c → rowLe clin a c := by
  intro a b c hab hbc
  rcases hab with h1 | ⟨h1, h1'⟩ <;> rcases hbc with h2 | ⟨h2, h2'⟩
  · exact Or.inl (h1.trans h2)
  · exact Or.inl (h2 ▸ h1)
  · exact Or.inl (h1 ▸ h2)
  · exact Or.inr ⟨h1.trans h2, h1'.trans h2'⟩

/-- C4: after the load completes the rows of every table in the dictionary
are sorted first by tumor/normal sample status and then by Patient_ID. -/
theorem c4_rows_sorted (d : DataDict) (out : DataDict) (h : lsccFormat d = some out) :
    ∃ d2, out = sort_all_rows d2 ∧
      ∀ p ∈ out, List.Sorted (rowLe ((dictGet d2 "clinical").getD ⟨[], []⟩)) p.2.rows := by
  rw [lsccFormat] at h
  cases hc : dictGet d "clinical" with
  | none => rw [hc] at h; cases h
  | some clin =>
    rw [hc] at h
    injection h with h
    subst h
    refine ⟨normalizeStep (dictSet d "clinical"
      (imputeSTN (clin.reindex (unionize_indices d "followup")))), rfl, ?_⟩
    intro p hp
    simp only [sort_all_rows, List.mem_map] at hp
    obtain ⟨q, -, rfl⟩ := hp
    haveI : IsTotal (String × List Cell) (rowLe ((dictGet (normalizeStep (dictSet d "clinical"
      (imputeSTN (clin.reindex (unionize_indices d "followup"))))) "clinical").getD ⟨[], []⟩)) :=
      ⟨rowLe_total _⟩
    haveI : IsTrans (String × List Cell) (rowLe ((dictGet (normalizeStep (dictSet d "clinical"
      (imputeSTN (clin.reindex (unionize_indices d "followup"))))) "clinical").getD ⟨[], []⟩)) :=
      ⟨fun a b c => rowLe_trans _ a b c⟩
    exact List.sorted_insertionSort _ _

/-- Witness for C4 at the concrete dictionary `exDict`. -/
theorem c4_witness :
    ∃ d2, lsccOutEx = sort_all_rows d2 ∧
      ∀ p ∈ lsccOutEx, List.Sorted (rowLe ((dictGet d2 "clinical").getD ⟨[], []⟩)) p.2.rows :=
  c4_rows_sorted exDict lsccOutEx rfl

theorem setIndexRaw_spec {ks : List String} {t : RawDF} {d : IndexedDF}
    (h : setIndexRaw ks t = some d) :
    d.keyCols = ks ∧ d.rows.map Prod.fst = t.rows.map fun r => ks.map (cellOf t.cols r) := by
  rw [setIndexRaw] at h
  split at h
  · injection h with h
    subst h
    exact ⟨rfl, by simp [List.map_map, Function.comp_def]⟩
  · cases h

theorem dropColsIdx_spec {ds : List String} {t d : IndexedDF}
    (h : dropColsIdx ds t = some d) :
    d.keyCols = t.keyCols ∧ d.rows.map Prod.fst = t.rows.map Prod.fst := by
  rw [dropColsIdx] at h
  split at h
  · injection h with h
    subst h
    exact ⟨rfl, by simp [List.map_map, Function.comp_def]⟩
  · cases h

/-- C5: the phosphoproteomics table is keyed, before transposition, by the
index levels Name, Site, Peptide, Database_ID, and the proteomics table by
Name, Database_ID; each row's key is the tuple of those columns' values. -/
theorem c5_composite_keys :
    ∀ (k : Fin 2) (raw : RawDF) (d : IndexedDF),
      keyedIndexed k raw = some d →
      d.keyCols = keyedCols k ∧
      ∃ u, keyedPre k raw = some u ∧
        d.rows.map Prod.fst = u.rows.map fun r => (keyedCols k).map (cellOf u.cols r) := by
  intro k raw d h
  fin_cases k
  · simp only [keyedIndexed, keyedPre, keyedCols, Matrix.cons_val_zero] at h ⊢
    unfold phosphoIndexed at h
    obtain ⟨u, hu, h2⟩ := Option.bind_eq_some.mp h
    obtain ⟨i, hi, h3⟩ := Option.bind_eq_some.mp h2
    obtain ⟨hk, hrows⟩ := setIndexRaw_spec hi
    obtain ⟨hk2, hrows2⟩ := dropColsIdx_spec h3
    refine ⟨?_, u, hu, ?_⟩
    · rw [hk2, hk]; exact rfl
    · rw [hrows2, hrows]; exact rfl
  · simp only [keyedIndexed, keyedPre, keyedCols, Matrix.cons_val_one, Matrix.head_cons] at h ⊢
    unfold proteomicsIndexed at h
    obtain ⟨u, hu, h2⟩ := Option.bind_eq_some.mp h
    obtain ⟨i, hi, h3⟩ := Option.bind_eq_some.mp h2
    obtain ⟨hk, hrows⟩ := setIndexRaw_spec hi
    obtain ⟨hk2, hrows2⟩ := dropColsIdx_spec h3
    refine ⟨?_, u, hu, ?_⟩
    · rw [hk2, hk]; exact rfl
    · rw [hrows2, hrows]; exact rfl

/-- Witness for C5 at the concrete one-row phosphoproteomics file. -/
theorem c5_witness :
    phosphoIdxEx.keyCols = keyedCols 0 ∧
    ∃ u, keyedPre 0 phosphoRawEx = some u ∧
      phosphoIdxEx.rows.map Prod.fst = u.rows.map fun r => (keyedCols 0).map (cellOf u.cols r) :=
  c5_composite_keys 0 phosphoRawEx phosphoIdxEx rfl

theorem mapOption_forall₂ {α β : Type} (f : α → Option β) :
    ∀ (l : List α) (l' : List β), mapOption f l = some l' →
      List.Forall₂ (fun a b => f a = some b) l l'
  | [], l', h => by
    rw [mapOption] at h
    injection h with h
    subst h
    exact List.Forall₂.nil
  | a :: l, l', h => by
    rw [mapOption] at h
    obtain ⟨b, hb, h2⟩ := Option.bind_eq_some.mp h
    obtain ⟨bs, hbs, h3⟩ := Option.map_eq_some'.mp h2
    subst h3
    exact List.Forall₂.cons hb (mapOption_forall₂ f l bs hbs)

theorem applyNumeric_spec {t : IndexedDF} {n : NumIDF} (h : applyNumeric t = some n) :
    n.keyCols = t.keyCols ∧ n.dataCols = t.dataCols ∧ List.Forall₂ numCoe t.rows n.rows := by
  rw [applyNumeric] at h
  obtain ⟨rs, hrs, h2⟩ := Option.map_eq_some'.mp h
  subst h2
  refine ⟨rfl, rfl, ?_⟩
  refine (mapOption_forall₂ _ t.rows rs hrs).imp ?_
  intro p q hpq
  obtain ⟨nc, hnc, h4⟩ := Option.map_eq_some'.mp hpq
  subst h4
  exact ⟨rfl, hnc⟩

theorem zip_fst_snd {α β : Type} : ∀ l : List (α × β), (l.map Prod.fst).zip (l.map Prod.snd) = l
  | [] => rfl
  | p :: l => by
    rw [List.map_cons, List.map_cons]
    show (p.1, p.2) :: ((l.map Prod.fst).zip (l.map Prod.snd)) = p :: l
    rw [zip_fst_snd l]

theorem transpose_sampleRows (m : NumIDF) : sampleRowsOf m m.transpose := by
  refine ⟨rfl, ?_⟩
  intro p hp
  obtain ⟨i, hi, hget⟩ := List.mem_iff_getElem.mp hp
  have hi1 : i < m.dataCols.length := by
    rw [List.length_zip] at hi
    exact lt_of_lt_of_le hi (min_le_left _ _)
  have hi2 : i < ((List.range m.dataCols.length).map
      fun j => m.rows.map fun r => r.2.getD j none).length := by
    rw [List.length_zip] at hi
    exact lt_of_lt_of_le hi (min_le_right _ _)
  rw [List.getElem_zip] at hget
  refine ⟨i, ?_, ?_⟩
  · rw [← hget]
    exact (List.getElem?_eq_getElem hi1).symm ▸ rfl
  · rw [← hget]
    simp only [NumIDF.transpose, List.getElem_map, List.getElem_range]

theorem sortRows_sampleRows {m : NumIDF} {t : TDF} (h : sampleRowsOf m t) :
    sampleRowsOf m t.sortRows := by
  obtain ⟨hkeys, hmem⟩ := h
  refine ⟨hkeys, ?_⟩
  intro p hp
  simp only [TDF.sortRows] at hp
  rw [zip_fst_snd] at hp
  rw [(List.perm_insertionSort (fun a b => a.1 ≤ b.1) (t.sampleIds.zip t.cells)).mem_iff] at hp
  exact hmem p hp

theorem gctTail_spec {d : IndexedDF} {out : TDF} (h : gctTail d = some out) :
    out.indexName = "Patient_ID" ∧
    ∃ n, applyNumeric d = some n ∧ List.Forall₂ numCoe d.rows n.rows ∧
      sampleRowsOf (sortIdx n) out ∧ out.sampleIds.Perm n.dataCols := by
  rw [gctTail] at h
  obtain ⟨n, hn, h2⟩ := Option.map_eq_some'.mp h
  subst h2
  obtain ⟨-, -, hf⟩ := applyNumeric_spec hn
  refine ⟨rfl, n, hn, hf, ?_, ?_⟩
  · exact sortRows_sampleRows (transpose_sampleRows (sortIdx n))
  · have hlen : ((sortIdx n).transpose).sampleIds.length ≤ ((sortIdx n).transpose).cells.length := by
      simp [NumIDF.transpose]
    have hz := (List.perm_insertionSort (fun a b => a.1 ≤ b.1)
      (((sortIdx n).transpose).sampleIds.zip ((sortIdx n).transpose).cells)).map Prod.fst
    rw [List.map_fst_zip _ _ hlen] at hz
    exact hz

/-- C6: every quantitative pipeline (CNV, phosphoproteomics, proteomics,
miRNA) coerces each data cell to a number and transposes, so that the output
is indexed by Patient_ID, its rows are the samples (the former data
columns), and each cell is the numeric coercion of the corresponding raw
cell. -/
theorem c6_numeric_transposed :
    ∀ (k : Fin 4) (raw : RawDF) (out : TDF),
      gctTransforms k raw = some out →
      out.indexName = "Patient_ID" ∧
      ∃ d n, gctStages k raw = some d ∧ applyNumeric d = some n ∧
        List.Forall₂ numCoe d.rows n.rows ∧ sampleRowsOf (sortIdx n) out ∧
        out.sampleIds.Perm n.dataCols := by
  intro k raw out h
  fin_cases k
  all_goals
    obtain ⟨d, hd, htail⟩ := Option.bind_eq_some.mp h
  all_goals
    obtain ⟨hi, n, hn, hf, hs, hp⟩ := gctTail_spec htail
  all_goals
    exact ⟨hi, d, n, hd, hn, hf, hs, hp⟩

/-- Witness for C6 at the concrete one-gene, one-sample CNV file. -/
theorem c6_witness :
    cnvTDFEx.indexName = "Patient_ID" ∧
    ∃ d n, gctStages 0 cnvRawEx = some d ∧ applyNumeric d = some n ∧
      List.Forall₂ numCoe d.rows n.rows ∧ sampleRowsOf (sortIdx n) cnvTDFEx ∧
      cnvTDFEx.sampleIds.Perm n.dataCols :=
  c6_numeric_transposed 0 cnvRawEx cnvTDFEx rfl

theorem selectColumns_spec {t : Tbl} {cs : List String} {s : Tbl}
    (h : selectColumns t cs = some s) :
    s.cols = cs ∧ (∀ c ∈ cs, c ∈ t.cols) ∧ s.ids = t.ids := by
  rw [selectColumns] at h
  split at h
  · injection h with h
    subst h
    refine ⟨rfl, ?_, by simp [Tbl.ids, List.map_map, Function.comp_def]⟩
    intro c hc
    rename_i hall
    rw [List.all_eq_true] at hall
    simpa using hall c hc
  · cases h

theorem dropColumns_spec {t : Tbl} {cs : List String} {s : Tbl}
    (h : dropColumns t cs = some s) :
    s.cols = t.cols.filter (fun c => !(cs.contains c)) ∧ s.ids = t.ids := by
  rw [dropColumns] at h
  split at h
  · injection h with h
    subst h
    exact ⟨rfl, by simp [Tbl.ids, List.map_map, Function.comp_def]⟩
  · cases h

/-- C7: the sample-annotation table is split into exactly three tables:
experimental_design gets the Experiment, Channel and QC.status columns,
derived_molecular the per-gene mutation and mutation-status columns, and
clinical all remaining columns; the three column sets are pairwise disjoint,
together comprise every retained annotation column, and all three tables
share the annotation table's row index. -/
theorem c7_annotation_split (raw : RawDF) (cl ed dm : Tbl)
    (h : annotationTransform raw = some (cl, ed, dm)) :
    ed.cols = experimental_design_cols ∧ dm.cols = derived_molecular_cols ∧
    ∃ base, annotationBase raw = some base ∧
      (∀ c, c ∈ cl.cols ↔
        c ∈ base.cols ∧ c ∉ experimental_design_cols ∧ c ∉ derived_molecular_cols) ∧
      (∀ c ∈ ed.cols, c ∉ dm.cols ∧ c ∉ cl.cols) ∧
      (∀ c ∈ dm.cols, c ∉ cl.cols) ∧
      (∀ c, (c ∈ ed.cols ∨ c ∈ dm.cols ∨ c ∈ cl.cols) ↔ c ∈ base.cols) ∧
      cl.ids = base.ids ∧ ed.ids = base.ids ∧ dm.ids = base.ids := by
  rw [annotationTransform] at h
  obtain ⟨base, hbase, h2⟩ := Option.bind_eq_some.mp h
  obtain ⟨ed0, hed, h3⟩ := Option.bind_eq_some.mp h2
  obtain ⟨df1, hdf1, h4⟩ := Option.bind_eq_some.mp h3
  obtain ⟨dm0, hdm, h5⟩ := Option.bind_eq_some.mp h4
  obtain ⟨cl0, hcl, heq⟩ := Option.map_eq_some'.mp h5
  rw [Prod.mk.injEq, Prod.mk.injEq] at heq
  obtain ⟨hceq, hedeq, hdmeq⟩ := heq
  subst hceq; subst hedeq; subst hdmeq
  obtain ⟨hedc, hedsub, hedids⟩ := selectColumns_spec hed
  obtain ⟨hdf1c, hdf1ids⟩ := dropColumns_spec hdf1
  obtain ⟨hdmc, hdmsub, hdmids⟩ := selectColumns_spec hdm
  obtain ⟨hclc, hclids⟩ := dropColumns_spec hcl
  have hclmem : ∀ c, c ∈ cl0.cols ↔
      c ∈ base.cols ∧ c ∉ experimental_design_cols ∧ c ∉ derived_molecular_cols := by
    intro c
    rw [hclc, List.mem_filter, hdf1c, List.mem_filter]
    simp [and_assoc]
  refine ⟨hedc, hdmc, base, hbase, hclmem, ?_, ?_, ?_, ?_, ?_, ?_⟩
  · intro c hc
    rw [hedc] at hc
    constructor
    · rw [hdmc]
      revert c
      decide
    · rw [hclmem c]
      intro hmem
      exact hmem.2.1 hc
  · intro c hc
    rw [hdmc] at hc
    rw [hclmem c]
    intro hmem
    exact hmem.2.2 hc
  · intro c
    constructor
    · rintro (hc | hc | hc)
      · rw [hedc] at hc
        exact hedsub c hc
      · rw [hdmc] at hc
        have := hdmsub c hc
        rw [hdf1c, List.mem_filter] at this
        exact this.1
      · exact ((hclmem c).mp hc).1
    · intro hc
      by_cases hce : c ∈ experimental_design_cols
      · left
        rw [hedc]
        exact hce
      · by_cases hcd : c ∈ derived_molecular_cols
        · right; left
          rw [hdmc]
          exact hcd
        · right; right
          exact (hclmem c).mpr ⟨hc, hce, hcd⟩
  · rw [hclids, hdf1ids]
  · exact hedids
  · rw [hdmids, hdf1ids]

/-- Witness for C7 at the concrete one-row annotation file. -/
theorem c7_witness :
    annotEx.2.1.cols = experimental_design_cols ∧
    annotEx.2.2.cols = derived_molecular_cols ∧
    ∃ base, annotationBase annotRawEx = some base ∧
      (∀ c, c ∈ annotEx.1.cols ↔
        c ∈ base.cols ∧ c ∉ experimental_design_cols ∧ c ∉ derived_molecular_cols) ∧
      (∀ c ∈ annotEx.2.1.cols, c ∉ annotEx.2.2.cols ∧ c ∉ annotEx.1.cols) ∧
      (∀ c ∈ annotEx.2.2.cols, c ∉ annotEx.1.cols) ∧
      (∀ c, (c ∈ annotEx.2.1.cols ∨ c ∈ annotEx.2.2.cols ∨ c ∈ annotEx.1.cols) ↔
        c ∈ base.cols) ∧
      annotEx.1.ids = base.ids ∧ annotEx.2.1.ids = base.ids ∧ annotEx.2.2.ids = base.ids :=
  c7_annotation_split annotRawEx annotEx.1 annotEx.2.1 annotEx.2.2 rfl

theorem cellOf_cons (c0 : String) (cs : List String) (v : Cell) (r : List Cell) (x : String) :
    cellOf (c0 :: cs) (v :: r) x = if c0 == x then v else cellOf cs r x := by
  by_cases h : c0 == x
  · simp [cellOf, colIdx, h]
  · simp only [cellOf, colIdx, if_neg h]
    cases hcs : colIdx cs x with
    | none => simp
    | some i => simp

theorem cellOf_filterCols (P : String → Bool) :
    ∀ (cols : List String) (r : List Cell) (x : String), P x = true →
      r.length = cols.length →
      cellOf (cols.filter P) ((cols.zip r).filterMap fun q => if P q.1 = true then some q.2 else none) x
        = cellOf cols r x := by
  intro cols
  induction cols with
  | nil => intro r x _ _; rfl
  | cons c0 cs ih =>
    intro r x hx hlen
    cases r with
    | nil => simp at hlen
    | cons v r' =>
      have hlen' : r'.length = cs.length := by simpa using hlen
      by_cases hP : P c0 = true
      · rw [List.filter_cons_of_pos hP]
        show cellOf (c0 :: cs.filter P)
          (((c0, v) :: cs.zip r').filterMap fun q => if P q.1 = true then some q.2 else none) x = _
        simp only [List.filterMap_cons, hP, if_true]
        rw [cellOf_cons, cellOf_cons]
        by_cases hcx : c0 == x
        · rw [if_pos hcx, if_pos hcx]
        · rw [if_neg hcx, if_neg hcx]
          exact ih r' x hx hlen'
      · have hcx : ¬(c0 == x) = true := by
          intro hb
          rw [beq_iff_eq] at hb
          subst hb
          exact hP hx
        rw [Bool.not_eq_true] at hP
        rw [List.filter_cons_of_neg (by simp [hP])]
        show cellOf (cs.filter P)
          (((c0, v) :: cs.zip r').filterMap fun q => if P q.1 = true then some q.2 else none) x = _
        simp only [List.filterMap_cons, hP, Bool.false_eq_true, if_false]
        rw [cellOf_cons, if_neg hcx]
        exact ih r' x hx hlen'

theorem find?_map_fst {β : Type} (g : (String × List Cell) → β)
    (l : List (String × List Cell)) (id : String) :
    ((l.map fun p => (p.1, g p)).find? fun p => p.1 == id) =
      (l.find? fun p => p.1 == id).map fun p => (p.1, g p) := by
  rw [List.find?_map]
  rfl

theorem selectGenes_ids (t : Tbl) (gs : Option (List String)) :
    (selectGenes t gs).ids = t.ids := by
  cases gs with
  | none => rfl
  | some gl => simp [selectGenes, Tbl.ids, List.map_map, Function.comp_def]

theorem lookupRow_isSome_iff (t : Tbl) (id : String) :
    (t.lookupRow id).isSome ↔ id ∈ t.ids := by
  rw [Tbl.lookupRow, Option.isSome_map', List.find?_isSome]
  constructor
  · rintro ⟨x, hx, hbeq⟩
    rw [beq_iff_eq] at hbeq
    subst hbeq
    exact List.mem_map_of_mem Prod.fst hx
  · intro h
    rw [Tbl.ids, List.mem_map] at h
    obtain ⟨x, hx, rfl⟩ := h
    exact ⟨x, hx, beq_self_eq_true _⟩

theorem lookupRow_of_mem_nodup {t : Tbl} (h : t.ids.Nodup) :
    ∀ {q : String × List Cell}, q ∈ t.rows → t.lookupRow q.1 = some q.2 := by
  obtain ⟨cols, rows⟩ := t
  simp only [Tbl.ids, Tbl.lookupRow] at h ⊢
  induction rows with
  | nil => intro q hq; cases hq
  | cons a l ih =>
    intro q hq
    rw [List.map_cons, List.nodup_cons] at h
    rcases List.mem_cons.mp hq with rfl | hql
    · have hfq : List.find? (fun p => p.1 == q.1) (q :: l) = some q := by
        simp [List.find?_cons]
      rw [hfq]
      rfl
    · have hne : (a.1 == q.1) = false := by
        rw [beq_eq_false_iff_ne]
        intro hb
        exact h.1 (hb ▸ List.mem_map_of_mem Prod.fst hql)
      have hfa : List.find? (fun p => p.1 == q.1) (a :: l) =
          List.find? (fun p => p.1 == q.1) l := by
        simp [List.find?_cons, hne]
      rw [hfa]
      exact ih h.2 hql

theorem lookupRow_selectGenes (t : Tbl) (gl : List String) (id : String) :
    (selectGenes t (some gl)).lookupRow id = (t.lookupRow id).map fun r =>
      (t.cols.zip r).filterMap fun q =>
        if (gl.any fun g => matchesGene g q.1) = true then some q.2 else none := by
  rw [Tbl.lookupRow, Tbl.lookupRow]
  show ((t.rows.map fun p => (p.1, (t.cols.zip p.2).filterMap fun q =>
      if (gl.any fun g => matchesGene g q.1) = true then some q.2 else none)).find?
      fun p => p.1 == id).map Prod.snd = _
  rw [find?_map_fst]
  cases t.rows.find? fun p => p.1 == id <;> rfl

theorem cellAt_selectGenes (t : Tbl) (gs : Option (List String))
    (hw : ∀ p ∈ t.rows, p.2.length = t.cols.length) (id c : String)
    (hc : c ∈ (selectGenes t gs).cols) :
    (selectGenes t gs).cellAt id c = t.cellAt id c := by
  cases gs with
  | none => rfl
  | some gl =>
    have hc2 : c ∈ t.cols.filter fun c => gl.any fun g => matchesGene g c := hc
    have hP : (gl.any fun g => matchesGene g c) = true := (List.mem_filter.mp hc2).2
    rw [Tbl.cellAt, Tbl.cellAt, lookupRow_selectGenes]
    cases hf : t.lookupRow id with
    | none => rfl
    | some r =>
      simp only [Option.map_some']
      show cellOf (selectGenes t (some gl)).cols ((t.cols.zip r).filterMap fun q =>
        if (gl.any fun g => matchesGene g q.1) = true then some q.2 else none) c =
        cellOf t.cols r c
      exact cellOf_filterCols _ t.cols r c hP (lookupRow_length hw hf)

/-- C8: the comparison utility returns a table whose rows are exactly the
samples shared by both inputs, whose columns are the selected columns of
both inputs renamed with the source table's name appended, and whose cells
come unchanged from the matching row of their source table. -/
theorem c8_compare_omics (t1 t2 : Tbl) (n1 n2 : String) (g1 g2 : Option (List String))
    (h1 : t1.ids.Nodup)
    (hw1 : ∀ p ∈ t1.rows, p.2.length = t1.cols.length)
    (hw2 : ∀ p ∈ t2.rows, p.2.length = t2.cols.length) :
    (compare_omics t1 t2 n1 n2 g1 g2).cols =
      ((selectGenes t1 g1).cols.map fun c => c ++ "_" ++ n1) ++
      ((selectGenes t2 g2).cols.map fun c => c ++ "_" ++ n2) ∧
    (∀ id, id ∈ (compare_omics t1 t2 n1 n2 g1 g2).ids ↔ id ∈ t1.ids ∧ id ∈ t2.ids) ∧
    (∀ p ∈ (compare_omics t1 t2 n1 n2 g1 g2).rows,
      ∃ r1 r2, (selectGenes t1 g1).lookupRow p.1 = some r1 ∧
        (selectGenes t2 g2).lookupRow p.1 = some r2 ∧ p.2 = r1 ++ r2) ∧
    (∀ id c, c ∈ (selectGenes t1 g1).cols →
      (selectGenes t1 g1).cellAt id c = t1.cellAt id c) ∧
    (∀ id c, c ∈ (selectGenes t2 g2).cols →
      (selectGenes t2 g2).cellAt id c = t2.cellAt id c) := by
  refine ⟨rfl, ?_, ?_, fun id c hc => cellAt_selectGenes t1 g1 hw1 id c hc,
    fun id c hc => cellAt_selectGenes t2 g2 hw2 id c hc⟩
  · intro id
    constructor
    · intro hid
      rw [Tbl.ids, List.mem_map] at hid
      obtain ⟨p, hp, rfl⟩ := hid
      have hp2 : p ∈ (selectGenes t1 g1).rows.filterMap fun q =>
          match (selectGenes t2 g2).lookupRow q.1 with
          | some r2 => some (q.1, q.2 ++ r2)
          | none => none := hp
      rw [List.mem_filterMap] at hp2
      obtain ⟨q, hq, hFq⟩ := hp2
      cases hl : (selectGenes t2 g2).lookupRow q.1 with
      | none => rw [hl] at hFq; cases hFq
      | some r2 =>
        rw [hl] at hFq
        injection hFq with hFq
        subst hFq
        constructor
        · have hm : q.1 ∈ (selectGenes t1 g1).ids := List.mem_map_of_mem Prod.fst hq
          rw [selectGenes_ids] at hm
          exact hm
        · have hs : ((selectGenes t2 g2).lookupRow q.1).isSome := by rw [hl]; rfl
          rw [lookupRow_isSome_iff, selectGenes_ids] at hs
          exact hs
    · rintro ⟨hid1, hid2⟩
      rw [Tbl.ids, List.mem_map]
      have hid1b : id ∈ (selectGenes t1 g1).ids := by
        rw [selectGenes_ids]; exact hid1
      rw [Tbl.ids, List.mem_map] at hid1b
      obtain ⟨q, hq, hqid⟩ := hid1b
      have hl : ((selectGenes t2 g2).lookupRow q.1).isSome := by
        rw [lookupRow_isSome_iff, selectGenes_ids, hqid]
        exact hid2
      obtain ⟨r2, hr2⟩ := Option.isSome_iff_exists.mp hl
      refine ⟨(q.1, q.2 ++ r2), ?_, hqid⟩
      have hmem : (q.1, q.2 ++ r2) ∈ (selectGenes t1 g1).rows.filterMap fun q =>
          match (selectGenes t2 g2).lookupRow q.1 with
          | some r2 => some (q.1, q.2 ++ r2)
          | none => none := by
        rw [List.mem_filterMap]
        exact ⟨q, hq, by rw [hr2]⟩
      exact hmem
  · intro p hp
    have hp2 : p ∈ (selectGenes t1 g1).rows.filterMap fun q =>
        match (selectGenes t2 g2).lookupRow q.1 with
        | some r2 => some (q.1, q.2 ++ r2)
        | none => none := hp
    rw [List.mem_filterMap] at hp2
    obtain ⟨q, hq, hFq⟩ := hp2
    cases hl : (selectGenes t2 g2).lookupRow q.1 with
    | none => rw [hl] at hFq; cases hFq
    | some r2 =>
      rw [hl] at hFq
      injection hFq with hFq
      subst hFq
      refine ⟨q.2, r2, ?_, hl, rfl⟩
      have hnd : (selectGenes t1 g1).ids.Nodup := by
        rw [selectGenes_ids]; exact h1
      exact lookupRow_of_mem_nodup hnd hq

/-- Witness for C8 at the concrete tables `cmpT1`, `cmpT2`, with no gene
filter. -/
theorem c8_witness :
    (compare_omics cmpT1 cmpT2 "proteomics" "acetylproteomics" none none).cols =
      ((selectGenes cmpT1 none).cols.map fun c => c ++ "_" ++ "proteomics") ++
      ((selectGenes cmpT2 none).cols.map fun c => c ++ "_" ++ "acetylproteomics") ∧
    (∀ id, id ∈ (compare_omics cmpT1 cmpT2 "proteomics" "acetylproteomics" none none).ids ↔
      id ∈ cmpT1.ids ∧ id ∈ cmpT2.ids) ∧
    (∀ p ∈ (compare_omics cmpT1 cmpT2 "proteomics" "acetylproteomics" none none).rows,
      ∃ r1 r2, (selectGenes cmpT1 none).lookupRow p.1 = some r1 ∧
        (selectGenes cmpT2 none).lookupRow p.1 = some r2 ∧ p.2 = r1 ++ r2) ∧
    (∀ id c, c ∈ (selectGenes cmpT1 none).cols →
      (selectGenes cmpT1 none).cellAt id c = cmpT1.cellAt id c) ∧
    (∀ id c, c ∈ (selectGenes cmpT2 none).cols →
      (selectGenes cmpT2 none).cellAt id c = cmpT2.cellAt id c) :=
  c8_compare_omics cmpT1 cmpT2 "proteomics" "acetylproteomics" none none
    (by decide) (by decide) (by decide)
